import Mathlib

/-
Verification development for the StockThemes repository.

Shallow embedding conventions:
- UTC instants (chrono DateTime Utc) are modelled as Int seconds since the Unix
  epoch; local instants (chrono DateTime Local) are modelled the same way under
  a fixed-offset local clock (no DST transitions).
- Calendar dates (chrono NaiveDate) are modelled as Int day numbers since
  1970-01-01 (which was a Thursday).
- f64 values are modelled as rational numbers; the division guards in the
  source are translated as written.
- Integer divisions below always have a positive literal divisor, where the
  Lean Int division and modulo coincide with floor division and with the
  euclidean division used by chrono.
-/

-- ── Calendar arithmetic (model of chrono date handling) ──────────────────────

/-- Day number of a UTC instant; models DateTime::date_naive under the
seconds-since-epoch encoding. -/
def dateNaive (ts : Int) : Int := ts / 86400

/-- Seconds into the day of an instant; models DateTime::time on the fixed
offset clock. -/
def secOfDay (ts : Int) : Int := ts % 86400

/-- Weekday of a day number, 0 = Monday .. 6 = Sunday.
Day 0 (1970-01-01) was a Thursday, hence the +3 shift. -/
def weekdayOf (day : Int) : Int := (day + 3) % 7

/-- Saturday or Sunday; models chrono Weekday::Sat and Weekday::Sun. -/
def isWeekend (day : Int) : Bool := weekdayOf day = 5 ∨ weekdayOf day = 6

/-- Proleptic Gregorian leap year test, as used by chrono. -/
def isLeapYear (y : Int) : Bool := y % 4 = 0 ∧ (y % 100 ≠ 0 ∨ y % 400 = 0)

/-- Number of days in a Gregorian month. -/
def daysInMonth (y m : Int) : Int :=
  if m = 2 then (if isLeapYear y then 29 else 28)
  else if m = 4 ∨ m = 6 ∨ m = 9 ∨ m = 11 then 30
  else 31

/-- Civil date (year, month, day) of a day number; the standard
days-to-Gregorian conversion (as performed inside chrono). -/
def civilFromDays (z0 : Int) : Int × Int × Int :=
  let z := z0 + 719468
  let era := z / 146097
  let doe := z - era * 146097
  let yoe := (doe - doe / 1460 + doe / 36524 - doe / 146096) / 365
  let y := yoe + era * 400
  let doy := doe - (365 * yoe + yoe / 4 - yoe / 100)
  let mp := (5 * doy + 2) / 153
  let d := doy - (153 * mp + 2) / 5 + 1
  let m := if mp < 10 then mp + 3 else mp - 9
  (if m ≤ 2 then y + 1 else y, m, d)

/-- Day number of a civil date; inverse of civilFromDays. -/
def daysFromCivil (y m d : Int) : Int :=
  let y1 := if m ≤ 2 then y - 1 else y
  let era := y1 / 400
  let yoe := y1 - era * 400
  let doy := (153 * (if m > 2 then m - 3 else m + 9) + 2) / 5 + d - 1
  let doe := yoe * 365 + yoe / 4 - yoe / 100 + doy
  era * 146097 + doe - 719468

/-- Day number of the Thursday in the ISO week containing the given day. -/
def isoThursday (day : Int) : Int := day - weekdayOf day + 3

/-- ISO week-based year of a day number; models NaiveDate::iso_week().year(). -/
def isoYear (day : Int) : Int := (civilFromDays (isoThursday day)).1

/-- ISO week number of a day number; models NaiveDate::iso_week().week(). -/
def isoWeek (day : Int) : Int :=
  (isoThursday day - daysFromCivil (isoYear day) 1 1) / 7 + 1

/-- Subtract a number of calendar months from an instant, clamping the day of
month; models DateTime - Months (chrono checked_sub_months, which keeps the
time of day and clamps the day to the target month length). -/
def subMonths (ts : Int) (months : Nat) : Int :=
  let ymd := civilFromDays (dateNaive ts)
  let total := ymd.1 * 12 + (ymd.2.1 - 1) - (months : Int)
  let y := total / 12
  let m := total % 12 + 1
  let d := min ymd.2.2 (daysInMonth y m)
  daysFromCivil y m d * 86400 + secOfDay ts

-- ── Data model (yf.rs, lib.rs) ───────────────────────────────────────────────

/-- One OHLCV bar; models the Candle struct (timestamp is the UTC bar start,
last_updated the local instant the bar was stored). -/
structure Candle where
  timestamp : Int
  «open» : ℚ
  high : ℚ
  low : ℚ
  close : ℚ
  volume : Nat
  last_updated : Int
deriving DecidableEq, Repr, Inhabited

/-- Ticker classification; models the TickerType enum. -/
inductive TickerType where
  | Sector
  | Industry
  | Stock
deriving DecidableEq, Repr

/-- Trailing-return row; models the Performance struct (the extra_info JSON
map is modelled as an association list). -/
structure Performance where
  ticker : String
  ticker_type : TickerType
  perf_1m : ℚ
  perf_3m : ℚ
  perf_6m : ℚ
  perf_1y : ℚ
  extra_info : List (String × ℚ)
  last_updated : Int
deriving DecidableEq, Repr

/-- Time window for a candle request; models the TimeSpec enum (only the
variants used by fetch_candles). -/
inductive TimeSpec where
  | Range2Years
  | Interval (start : Int) (stop : Int)
deriving DecidableEq, Repr

-- ── rrg_util.rs ──────────────────────────────────────────────────────────────

/-- A single period after optional weekly aggregation; models PeriodClose. -/
structure PeriodClose where
  date : Int
  close : ℚ
deriving DecidableEq, Repr

/-- RRG response payload; models RrgResponse (tail points as pairs
(rs_ratio, rs_momentum); history points as pairs (date, value)). -/
structure RrgResponse where
  ticker : String
  rs_ratio : ℚ
  rs_momentum : ℚ
  tail : List (ℚ × ℚ)
  rs_history : List (Int × ℚ)
deriving DecidableEq, Repr

/-- Strict order on BTreeMap keys (iso year, iso week), lexicographic. -/
def keyLt (a b : Int × Int) : Bool := a.1 < b.1 ∨ (a.1 = b.1 ∧ a.2 < b.2)

/-- Ordered insert-or-replace into a key-sorted association list; models
BTreeMap::insert (an existing entry with an equal key is overwritten). -/
def btreeInsert (k : Int × Int) (v : PeriodClose) :
    List ((Int × Int) × PeriodClose) → List ((Int × Int) × PeriodClose)
  | [] => [(k, v)]
  | e :: rest =>
    if keyLt k e.1 then (k, v) :: e :: rest
    else if k = e.1 then (k, v) :: rest
    else e :: btreeInsert k v rest

/-- Aggregate daily candles to weekly closes: group by ISO (year, week) in a
BTreeMap, later candles in a week overwrite earlier ones, then take the values
in key order; models to_weekly. -/
def to_weekly (candles : List Candle) : List PeriodClose :=
  (candles.foldl
      (fun m c =>
        let date := dateNaive c.timestamp
        btreeInsert (isoYear date, isoWeek date) { date := date, close := c.close } m)
      []).map (fun e => e.2)

/-- Convert daily candles to periods (date and close of each candle); models
to_daily. -/
def to_daily (candles : List Candle) : List PeriodClose :=
  candles.map (fun c => { date := dateNaive c.timestamp, close := c.close })

/-- Simple moving average with an expanding window at the start: position i
averages the slice from i - (period - 1) (saturating at 0, as the Rust
saturating_sub does) through i; models sma. -/
def sma (src : List ℚ) (period : Nat) : List ℚ :=
  (List.range src.length).map (fun i =>
    let start := i - (period - 1)
    let window := (src.drop start).take (i + 1 - start)
    window.sum / (window.length : ℚ))

/-- Round to 3 decimal places, halves away from zero (Rust f64::round);
models r3. -/
def r3 (v : ℚ) : ℚ :=
  (if 0 ≤ v * 1000 then ⌊v * 1000 + 1 / 2⌋ else ⌈v * 1000 - 1 / 2⌉ : Int) / 1000

/-- Lookup of a date in the benchmark HashMap; when several periods share a
date, the last one collected wins (HashMap from-iterator semantics). -/
def bmkLookup (bmk : List PeriodClose) (d : Int) : Option ℚ :=
  (bmk.reverse.find? (fun p => p.date = d)).map (fun p => p.close)

/-- The inner join of align as a single list of triples
(etf close, date, benchmark close); the three parallel vectors pushed by the
source loop are its projections. -/
def alignList (etf bmk : List PeriodClose) : List (ℚ × Int × ℚ) :=
  etf.filterMap (fun p =>
    match bmkLookup bmk p.date with
    | some b => if p.close > (0 : ℚ) ∧ b > (0 : ℚ) then some (p.close, p.date, b) else none
    | none => none)

/-- Align two period series by date (inner join keeping strictly positive
closes on both sides), returning (etf closes, dates, benchmark closes) in
chronological order; models align. -/
def align (etf bmk : List PeriodClose) : List ℚ × List Int × List ℚ :=
  ((alignList etf bmk).map (fun t => t.1),
   (alignList etf bmk).map (fun t => t.2.1),
   (alignList etf bmk).map (fun t => t.2.2))

/-- Resampling step of compute_rrg: daily passes candles through, anything
else (weekly default) aggregates by ISO week. -/
def resample (timeframe : String) (candles : List Candle) : List PeriodClose :=
  if timeframe = "daily" then to_daily candles else to_weekly candles

/-- Smoothing period of compute_rrg: 50 for daily, 10 otherwise. -/
def smaPeriod (timeframe : String) : Nat := if timeframe = "daily" then 50 else 10

/-- Aligned triples of compute_rrg after resampling both inputs. -/
def alignedOf (timeframe : String) (etf_candles bmk_candles : List Candle) :
    List (ℚ × Int × ℚ) :=
  alignList (resample timeframe etf_candles) (resample timeframe bmk_candles)

/-- Number of aligned points (the n of compute_rrg). -/
def alignLen (timeframe : String) (etf_candles bmk_candles : List Candle) : Nat :=
  (alignedOf timeframe etf_candles bmk_candles).length

/-- Aligned dates of compute_rrg. -/
def alignDates (timeframe : String) (etf_candles bmk_candles : List Candle) : List Int :=
  (alignedOf timeframe etf_candles bmk_candles).map (fun t => t.2.1)

/-- Raw relative-strength series of compute_rrg:
rs i = etf_close i / bmk_close i. -/
def rawRs (timeframe : String) (etf_candles bmk_candles : List Candle) : List ℚ :=
  let a := align (resample timeframe etf_candles) (resample timeframe bmk_candles)
  (a.1.zip a.2.2).map (fun p => p.1 / p.2)

/-- Smoothed rs series: sma of rawRs over the timeframe period. -/
def rsSmooth (timeframe : String) (etf_candles bmk_candles : List Candle) : List ℚ :=
  sma (rawRs timeframe etf_candles bmk_candles) (smaPeriod timeframe)

/-- Second smoothing: sma of rsSmooth over the same period. -/
def rsSmoothSma (timeframe : String) (etf_candles bmk_candles : List Candle) : List ℚ :=
  sma (rsSmooth timeframe etf_candles bmk_candles) (smaPeriod timeframe)

/-- RS-Ratio series of compute_rrg: (rs_smooth / its sma) * 100, with a zero
denominator mapped to 100. -/
def rsRatioSeq (timeframe : String) (etf_candles bmk_candles : List Candle) : List ℚ :=
  ((rsSmooth timeframe etf_candles bmk_candles).zip
      (rsSmoothSma timeframe etf_candles bmk_candles)).map
    (fun p => if p.2 ≠ 0 then p.1 / p.2 * 100 else 100)

/-- The sma of the RS-Ratio series. -/
def rsRatioSma (timeframe : String) (etf_candles bmk_candles : List Candle) : List ℚ :=
  sma (rsRatioSeq timeframe etf_candles bmk_candles) (smaPeriod timeframe)

/-- RS-Momentum series of compute_rrg: (rs_ratio / its sma) * 100, with a zero
denominator mapped to 100. -/
def rsMomentumSeq (timeframe : String) (etf_candles bmk_candles : List Candle) : List ℚ :=
  ((rsRatioSeq timeframe etf_candles bmk_candles).zip
      (rsRatioSma timeframe etf_candles bmk_candles)).map
    (fun p => if p.2 ≠ 0 then p.1 / p.2 * 100 else 100)

/-- JdK RS-Ratio / RS-Momentum computation; models compute_rrg.
Returns none when fewer than 20 aligned points exist. The tail covers the
half-open index range from n saturating-minus (tail_len + 1) up to
n saturating-minus 1, the history the last history_len indices. -/
def compute_rrg (ticker : String) (etf_candles bmk_candles : List Candle)
    (timeframe : String) (tail_len history_len : Nat) : Option RrgResponse :=
  let n := alignLen timeframe etf_candles bmk_candles
  if n < 20 then none
  else
    let rs_ratio := rsRatioSeq timeframe etf_candles bmk_candles
    let rs_momentum := rsMomentumSeq timeframe etf_candles bmk_candles
    match rs_ratio.getLast?, rs_momentum.getLast? with
    | some lastRatio, some lastMomentum =>
      let dates := alignDates timeframe etf_candles bmk_candles
      let tail_start := n - (tail_len + 1)
      let tail := (List.range' tail_start ((n - 1) - tail_start)).map (fun i =>
        (r3 (rs_ratio.getD i 0), r3 (rs_momentum.getD i 0)))
      let hist_start := n - history_len
      let rs_history := (List.range' hist_start (n - hist_start)).map (fun i =>
        (dates.getD i 0, r3 (rs_ratio.getD i 0)))
      some { ticker := ticker.toUpper
             rs_ratio := r3 lastRatio
             rs_momentum := r3 lastMomentum
             tail := tail
             rs_history := rs_history }
    | _, _ => none

-- ── util.rs ──────────────────────────────────────────────────────────────────

/-- Market-open test of is_upto_date: weekdays between market_open (inclusive)
and market_close (exclusive), with mo and mc as seconds of day. -/
def isMarketOpen (mo mc now : Int) : Bool :=
  if isWeekend (dateNaive now) then false
  else decide (mo ≤ secOfDay now ∧ secOfDay now < mc)

/-- One fuelled unfolding of the backward-walking loop inside is_upto_date:
skip weekend days; on a weekday stop when the market close of that day is not after
now, otherwise step one day back. The fuel returns none when the loop would
still be running; lemmas below show fuel 5 always suffices. -/
def lastMarketCloseAux (mc now : Int) : Nat → Int → Option Int
  | 0, _ => none
  | Nat.succ fuel, candidate =>
    if isWeekend candidate then lastMarketCloseAux mc now fuel (candidate - 1)
    else if candidate * 86400 + mc ≤ now then some (candidate * 86400 + mc)
    else lastMarketCloseAux mc now fuel (candidate - 1)

/-- The last_market_close closure of is_upto_date, starting the walk at the
date of now. -/
def lastMarketClose (mc now : Int) : Option Int :=
  lastMarketCloseAux mc now 5 (dateNaive now)

/-- Freshness predicate; models is_upto_date (the now argument models the
Local::now() read inside the function). During market hours on a weekday it is
always false; otherwise it compares against the last market close. The none
branch of the fuelled loop corresponds to the source loop never exiting, which
the lemmas below prove impossible for 0 ≤ mc < 86400. -/
def is_upto_date (mo mc now time : Int) : Bool :=
  if isMarketOpen mo mc now then false
  else
    match lastMarketClose mc now with
    | some c => decide (time ≥ c)
    | none => false

/-- First minimum of a list under a key; models Iterator::min_by_key, which
returns the first of several equally minimal elements. -/
def minByKey (key : Candle → Nat) : List Candle → Option Candle
  | [] => none
  | a :: l =>
    match minByKey key l with
    | none => some a
    | some m => if key m < key a then some m else some a

/-- The closest_close closure of compute_perf: the percent change from the
candle whose timestamp is nearest (by absolute seconds distance) to the latest
timestamp minus the given number of months. -/
def closest_close (candles : List Candle) (latest : Candle) (months_ago : Nat) : ℚ :=
  let target := subMonths latest.timestamp months_ago
  match minByKey (fun c => (c.timestamp - target).natAbs) candles with
  | some c => (latest.close - c.close) / c.close * 100
  | none => 0

/-- Trailing returns map; models compute_perf (the HashMap is modelled as an
association list with the four fixed keys). -/
def compute_perf (candles : List Candle) : List (String × ℚ) :=
  match candles.getLast? with
  | none => []
  | some latest =>
    [("1M", closest_close candles latest 1),
     ("3M", closest_close candles latest 3),
     ("6M", closest_close candles latest 6),
     ("1Y", closest_close candles latest 12)]

/-- Weighted multiplier of compute_rs. -/
def multiplier (p : Performance) : ℚ :=
  1 + (p.perf_1m * 0.3 + p.perf_3m * 0.4 + p.perf_6m * 0.2 + p.perf_1y * 0.1) / 100

/-- Relative strength of a performance row against a base row; models
compute_rs. -/
def compute_rs (perf base : Performance) : ℚ := multiplier perf / multiplier base

-- ── store.rs ─────────────────────────────────────────────────────────────────

/-- The candle table, a list of (ticker, candle) rows. -/
abbrev CandleStore : Type := List (String × Candle)

/-- Insert a candle into a timestamp-sorted list, keeping it sorted. -/
def insertTs (c : Candle) : List Candle → List Candle
  | [] => [c]
  | b :: l => if c.timestamp ≤ b.timestamp then c :: b :: l else b :: insertTs c l

/-- Stable sort by ascending timestamp (insertion sort); models the ORDER BY
ds ASC of the get_candles query. -/
def sortByTs : List Candle → List Candle
  | [] => []
  | c :: l => insertTs c (sortByTs l)

/-- Candle history for one ticker; models Store::get_candles, whose query
keeps only rows with ds at least now minus 2 * 365 days and orders them by ds
ascending. -/
def get_candles (store : CandleStore) (ticker : String) (now : Int) : List Candle :=
  let cutoff := now - 730 * 86400
  sortByTs ((store.filter (fun r => r.1 = ticker ∧ cutoff ≤ r.2.timestamp)).map
      (fun r => r.2))

/-- Insert-or-overwrite a single candle row keyed on (ticker, timestamp);
models one upsert statement of Store::save_candles. -/
def upsertCandle (store : CandleStore) (ticker : String) (c : Candle) : CandleStore :=
  if store.any (fun r => r.1 = ticker ∧ r.2.timestamp = c.timestamp) then
    store.map (fun r =>
      if r.1 = ticker ∧ r.2.timestamp = c.timestamp then (ticker, c) else r)
  else store ++ [(ticker, c)]

/-- Batch upsert; models Store::save_candles. -/
def save_candles (store : CandleStore) (ticker : String) (candles : List Candle) :
    CandleStore :=
  candles.foldl (fun s c => upsertCandle s ticker c) store

/-- Lookup of a stored candle row by (ticker, timestamp). -/
def storeLookup (store : CandleStore) (t : String) (ts : Int) : Option Candle :=
  (store.find? (fun r => r.1 = t ∧ r.2.timestamp = ts)).map (fun r => r.2)

/-- The (ticker, timestamp) key identifies at most one row; the uniqueness the
sqlite primary key enforces on the daily_candles table. -/
def StoreUniq (store : CandleStore) : Prop :=
  store.Pairwise (fun a b => ¬(a.1 = b.1 ∧ a.2.timestamp = b.2.timestamp))

/-- Last fetched candle with the given timestamp (upserts are applied left to
right, so the last one wins). -/
def fetchLookup (candles : List Candle) (ts : Int) : Option Candle :=
  candles.reverse.find? (fun c => c.timestamp = ts)

/-- Cached performance row if present and fresh; models Store::get_performance
(the sqlite query returns the unique row for (ticker, ticker_type), and the
function discards it when is_upto_date fails on its last_updated). -/
def get_performance (mo mc : Int) (perfs : List Performance) (ticker : String)
    (tt : TickerType) (now : Int) : Option Performance :=
  match perfs.find? (fun p => p.ticker = ticker ∧ p.ticker_type = tt) with
  | some perf => if is_upto_date mo mc now perf.last_updated then some perf else none
  | none => none

-- ── lib.rs ───────────────────────────────────────────────────────────────────

/-- Build a Performance from a trailing-returns map; models Performance::new
(missing keys default to 0, last_updated is Local::now(), modelled by the now
argument). -/
def Performance.new (ticker : String) (tt : TickerType)
    (perf_map : List (String × ℚ)) (now : Int) : Performance :=
  { ticker := ticker
    ticker_type := tt
    perf_1m := (perf_map.lookup "1M").getD 0
    perf_3m := (perf_map.lookup "3M").getD 0
    perf_6m := (perf_map.lookup "6M").getD 0
    perf_1y := (perf_map.lookup "1Y").getD 0
    extra_info := perf_map
    last_updated := now }

/-- Cache-refreshing candle fetch; models fetch_candles. The provider yf is a
function from (ticker, time spec) to the candles it returns; mo and mc are the
configured market hours; now models the single wall-clock instant of the call.
Returns the candle sequence together with the updated store. -/
def fetch_candles (mo mc : Int) (yf : String → TimeSpec → List Candle)
    (store : CandleStore) (ticker : String) (now : Int) :
    List Candle × CandleStore :=
  let candles := get_candles store ticker now
  if candles.isEmpty then
    let fetched := yf ticker TimeSpec.Range2Years
    (fetched, save_candles store ticker fetched)
  else if is_upto_date mo mc now (candles.getLastD default).last_updated then
    (candles, store)
  else
    let remaining := candles.dropLast
    let start :=
      match remaining.getLast? with
      | some c => c.timestamp - 86400
      | none => now - 2 * 365 * 86400
    let fetched := yf ticker (TimeSpec.Interval start now)
    let store1 := save_candles store ticker (remaining ++ fetched)
    (get_candles store1 ticker now, store1)

/-- Cached-or-recomputed stock performance; models fetch_stock_perf. The
source never writes the recomputed row back (there is no save_performances
call in the function), so the performance table passes through unchanged; the
returned triple is (performance, performance table, candle table). -/
def fetch_stock_perf (mo mc : Int) (yf : String → TimeSpec → List Candle)
    (perfStore : List Performance) (candleStore : CandleStore)
    (ticker : String) (now : Int) :
    Performance × List Performance × CandleStore :=
  match get_performance mo mc perfStore ticker TickerType.Stock now with
  | some perf => (perf, perfStore, candleStore)
  | none =>
    let fetched := fetch_candles mo mc yf candleStore ticker now
    (Performance.new ticker TickerType.Stock (compute_perf fetched.1) now,
     perfStore, fetched.2)

-- ── Concrete test inputs ─────────────────────────────────────────────────────

/-- Twenty daily candles on consecutive days with constant close 1. -/
def c1_candles : List Candle :=
  (List.range 20).map (fun k =>
    { timestamp := (k : Int) * 86400, «open» := 1, high := 1, low := 1, close := 1,
      volume := 0, last_updated := 0 })

/-- A performance row whose only nonzero return is the 3-month one. -/
def perfRow3m (x : ℚ) : Performance :=
  { ticker := "ROW", ticker_type := TickerType.Stock, perf_1m := 0, perf_3m := x,
    perf_6m := 0, perf_1y := 0, extra_info := [], last_updated := 0 }

/-- A benchmark performance row with all four returns zero. -/
def zeroBase : Performance :=
  { ticker := "QQQ", ticker_type := TickerType.Stock, perf_1m := 0, perf_3m := 0,
    perf_6m := 0, perf_1y := 0, extra_info := [], last_updated := 0 }

/-- A single concrete candle for instantiating the compute_perf claims. -/
def c4_candle : Candle :=
  { timestamp := 20000 * 86400, «open» := 50, high := 50, low := 50, close := 50,
    volume := 10, last_updated := 0 }

/-- A cached candle row with a stale last_updated tag. -/
def c3_old : Candle :=
  { timestamp := 0, «open» := 2, high := 2, low := 2, close := 2,
    volume := 5, last_updated := 0 }

/-- A freshly fetched candle one day later. -/
def c3_new : Candle :=
  { timestamp := 86400, «open» := 3, high := 3, low := 3, close := 3,
    volume := 6, last_updated := 493200 }

/-- A one-row candle store for the stale-refresh scenario. -/
def c3_store : CandleStore := [("T", c3_old)]

/-- A provider that always returns the single fresh candle. -/
def c3_yf : String → TimeSpec → List Candle := fun _ _ => [c3_new]

-- ── Helper lemmas ────────────────────────────────────────────────────────────

lemma length_sma (src : List ℚ) (p : Nat) : (sma src p).length = src.length := by
  simp [sma]

lemma getElem?_sma (src : List ℚ) (p i : Nat) (h : i < src.length) :
    (sma src p)[i]? =
      some (((src.drop (i - (p - 1))).take (i + 1 - (i - (p - 1)))).sum /
        ((((src.drop (i - (p - 1))).take (i + 1 - (i - (p - 1)))).length : ℚ))) := by
  unfold sma
  rw [List.getElem?_map, List.getElem?_range h]
  rfl

lemma sma_getD (src : List ℚ) (p i : Nat) (h : i < src.length) (hp : 1 ≤ p) :
    (sma src p).getD i 0 =
      ((src.drop (i + 1 - p)).take (min p (i + 1))).sum / (((min p (i + 1) : ℕ) : ℚ)) := by
  have hs : i - (p - 1) = i + 1 - p := by omega
  have hlen : ((src.drop (i + 1 - p)).take (min p (i + 1))).length = min p (i + 1) := by
    rw [List.length_take, List.length_drop]
    omega
  rw [List.getD_eq_getElem?_getD, getElem?_sma src p i h, Option.getD_some, hs]
  have ht : i + 1 - (i + 1 - p) = min p (i + 1) := by omega
  rw [ht, hlen]

lemma getD_map_zip (f : ℚ × ℚ → ℚ) (a b : List ℚ) (i : Nat)
    (ha : i < a.length) (hb : i < b.length) :
    ((a.zip b).map f).getD i 0 = f (a.getD i 0, b.getD i 0) := by
  have hz : i < (a.zip b).length := by
    rw [List.length_zip]
    omega
  rw [List.getD_eq_getElem?_getD, List.getElem?_map, List.getElem?_eq_getElem hz,
    List.getElem_zip]
  simp [List.getD_eq_getElem?_getD, List.getElem?_eq_getElem ha,
    List.getElem?_eq_getElem hb]

lemma length_map_zip (f : ℚ × ℚ → ℚ) (a b : List ℚ) :
    ((a.zip b).map f).length = min a.length b.length := by
  simp [List.length_zip]

lemma length_rawRs (tf : String) (etf bmk : List Candle) :
    (rawRs tf etf bmk).length = alignLen tf etf bmk := by
  simp [rawRs, align, alignedOf, alignLen, List.length_zip]

lemma length_rsSmooth (tf : String) (etf bmk : List Candle) :
    (rsSmooth tf etf bmk).length = alignLen tf etf bmk := by
  rw [rsSmooth, length_sma, length_rawRs]

lemma length_rsSmoothSma (tf : String) (etf bmk : List Candle) :
    (rsSmoothSma tf etf bmk).length = alignLen tf etf bmk := by
  rw [rsSmoothSma, length_sma, length_rsSmooth]

lemma length_rsRatioSeq (tf : String) (etf bmk : List Candle) :
    (rsRatioSeq tf etf bmk).length = alignLen tf etf bmk := by
  rw [rsRatioSeq, length_map_zip, length_rsSmooth, length_rsSmoothSma]
  omega

lemma length_rsRatioSma (tf : String) (etf bmk : List Candle) :
    (rsRatioSma tf etf bmk).length = alignLen tf etf bmk := by
  rw [rsRatioSma, length_sma, length_rsRatioSeq]

lemma length_rsMomentumSeq (tf : String) (etf bmk : List Candle) :
    (rsMomentumSeq tf etf bmk).length = alignLen tf etf bmk := by
  rw [rsMomentumSeq, length_map_zip, length_rsRatioSeq, length_rsRatioSma]
  omega

-- ── Claim theorems ───────────────────────────────────────────────────────────

/-- Claim C6: for every non-empty series and period at least 1, sma preserves the
length, each position i is the arithmetic mean of the window from
max (0, i - period + 1) through i (expanding at the start, trailing window of
size period afterward), and position 0 equals the first element. -/
theorem C6_sma_spec (src : List ℚ) (p : Nat) (h1 : src ≠ []) (h2 : 1 ≤ p) :
    (sma src p).length = src.length ∧
    (∀ i, i < src.length →
      (sma src p).getD i 0 =
        ((src.drop (i + 1 - p)).take (min p (i + 1))).sum / (((min p (i + 1) : ℕ) : ℚ))) ∧
    (sma src p).getD 0 0 = src.getD 0 0 := by
  refine ⟨length_sma src p, fun i hi => sma_getD src p i hi h2, ?_⟩
  have h0 : 0 < src.length := List.length_pos.2 h1
  rw [sma_getD src p 0 h0 h2]
  have hm : min p 1 = 1 := by omega
  have hd : (0 : Nat) + 1 - p = 0 := by omega
  rw [hd, hm, List.drop_zero]
  cases src with
  | nil => simp at h0
  | cons a t => simp

/-- Claim C6 witness: the sma specification instantiated on the series [1, 2, 3]
with period 2. -/
theorem C6_sma_spec_witness :
    (sma [(1 : ℚ), 2, 3] 2).length = 3 ∧ (sma [(1 : ℚ), 2, 3] 2).getD 0 0 = 1 := by
  have h := C6_sma_spec [(1 : ℚ), 2, 3] 2 (by decide) (by decide)
  exact ⟨h.1, h.2.2⟩

/-- Claim C9: with all-zero benchmark returns, compute_rs is strictly increasing in
perf_3m when the other three fields are fixed; consequently rows with perf_3m
of 10, 5 and -5 are ordered by compute_rs exactly as by perf_3m. -/
theorem C9_rs_monotone_perf3m :
    (∀ p q base : Performance,
      base.perf_1m = 0 → base.perf_3m = 0 → base.perf_6m = 0 → base.perf_1y = 0 →
      p.perf_1m = q.perf_1m → p.perf_6m = q.perf_6m → p.perf_1y = q.perf_1y →
      p.perf_3m < q.perf_3m →
      compute_rs p base < compute_rs q base) ∧
    compute_rs (perfRow3m 5) zeroBase < compute_rs (perfRow3m 10) zeroBase ∧
    compute_rs (perfRow3m (-5)) zeroBase < compute_rs (perfRow3m 5) zeroBase := by
  refine ⟨?_, by norm_num [compute_rs, multiplier, perfRow3m, zeroBase], by
    norm_num [compute_rs, multiplier, perfRow3m, zeroBase]⟩
  intro p q base hb1 hb3 hb6 hb1y h1 h6 h1y h3
  have hbase : multiplier base = 1 := by
    simp [multiplier, hb1, hb3, hb6, hb1y]
  rw [compute_rs, compute_rs, hbase, div_one, div_one]
  unfold multiplier
  rw [h1, h6, h1y]
  have c4 : (0.4 : ℚ) > 0 := by norm_num
  nlinarith [h3]

/-- Claim C9 witness: strict monotonicity applied to the concrete rows with perf_3m
equal to 5 and 10 against the all-zero benchmark. -/
theorem C9_rs_monotone_perf3m_witness :
    compute_rs (perfRow3m 5) zeroBase < compute_rs (perfRow3m 10) zeroBase := by
  exact C9_rs_monotone_perf3m.1 (perfRow3m 5) (perfRow3m 10) zeroBase
    rfl rfl rfl rfl rfl rfl rfl (by norm_num [perfRow3m])

set_option maxHeartbeats 1000000 in
/-- Claim C7: at every aligned index, the RS-Ratio is 100 times rs_smooth over its
own sma with a zero denominator mapped to exactly 100, the RS-Momentum is 100
times RS-Ratio over its own sma with the same guard, and both series are
defined at every aligned index (total, no crash). -/
theorem C7_ratio_momentum_guard (tf : String) (etf bmk : List Candle) (i : Nat)
    (h : i < alignLen tf etf bmk) :
    ((rsSmoothSma tf etf bmk).getD i 0 = 0 →
      (rsRatioSeq tf etf bmk).getD i 0 = 100) ∧
    ((rsSmoothSma tf etf bmk).getD i 0 ≠ 0 →
      (rsRatioSeq tf etf bmk).getD i 0 =
        100 * (rsSmooth tf etf bmk).getD i 0 / (rsSmoothSma tf etf bmk).getD i 0) ∧
    ((rsRatioSma tf etf bmk).getD i 0 = 0 →
      (rsMomentumSeq tf etf bmk).getD i 0 = 100) ∧
    ((rsRatioSma tf etf bmk).getD i 0 ≠ 0 →
      (rsMomentumSeq tf etf bmk).getD i 0 =
        100 * (rsRatioSeq tf etf bmk).getD i 0 / (rsRatioSma tf etf bmk).getD i 0) ∧
    (rsRatioSeq tf etf bmk).length = alignLen tf etf bmk ∧
    (rsMomentumSeq tf etf bmk).length = alignLen tf etf bmk := by
  have h1 : i < (rsSmooth tf etf bmk).length := by rw [length_rsSmooth]; omega
  have h2 : i < (rsSmoothSma tf etf bmk).length := by rw [length_rsSmoothSma]; omega
  have h3 : i < (rsRatioSeq tf etf bmk).length := by rw [length_rsRatioSeq]; omega
  have h4 : i < (rsRatioSma tf etf bmk).length := by rw [length_rsRatioSma]; omega
  have hr : (rsRatioSeq tf etf bmk).getD i 0 =
      if (rsSmoothSma tf etf bmk).getD i 0 ≠ 0
      then (rsSmooth tf etf bmk).getD i 0 / (rsSmoothSma tf etf bmk).getD i 0 * 100
      else 100 := by
    rw [rsRatioSeq]
    exact getD_map_zip _ _ _ i h1 h2
  have hm : (rsMomentumSeq tf etf bmk).getD i 0 =
      if (rsRatioSma tf etf bmk).getD i 0 ≠ 0
      then (rsRatioSeq tf etf bmk).getD i 0 / (rsRatioSma tf etf bmk).getD i 0 * 100
      else 100 := by
    rw [rsMomentumSeq]
    exact getD_map_zip _ _ _ i h3 h4
  refine ⟨fun hz => ?_, fun hz => ?_, fun hz => ?_, fun hz => ?_,
    length_rsRatioSeq tf etf bmk, length_rsMomentumSeq tf etf bmk⟩
  · rw [hr, if_neg (fun hc => hc hz)]
  · rw [hr, if_pos hz]; ring
  · rw [hm, if_neg (fun hc => hc hz)]
  · rw [hm, if_pos hz]; ring

set_option maxHeartbeats 1000000 in
/-- Claim C7 witness: the guard specification applied at index 0 of the concrete
20-point test series, extracting the total-definedness conjuncts. -/
theorem C7_ratio_momentum_guard_witness :
    (rsRatioSeq "daily" c1_candles c1_candles).length =
      alignLen "daily" c1_candles c1_candles ∧
    (rsMomentumSeq "daily" c1_candles c1_candles).length =
      alignLen "daily" c1_candles c1_candles := by
  have h := C7_ratio_momentum_guard "daily" c1_candles c1_candles 0 (by decide)
  exact ⟨h.2.2.2.2.1, h.2.2.2.2.2⟩

lemma compute_rrg_eq_none (ticker tf : String) (etf bmk : List Candle)
    (tl hl : Nat) (h : alignLen tf etf bmk < 20) :
    compute_rrg ticker etf bmk tf tl hl = none := by
  unfold compute_rrg
  simp only [if_pos h]

lemma compute_rrg_eq_some (ticker tf : String) (etf bmk : List Candle)
    (tl hl : Nat) (h : ¬ alignLen tf etf bmk < 20) :
    compute_rrg ticker etf bmk tf tl hl = some
      { ticker := ticker.toUpper
        rs_ratio := r3 ((rsRatioSeq tf etf bmk).getLast?.getD 0)
        rs_momentum := r3 ((rsMomentumSeq tf etf bmk).getLast?.getD 0)
        tail := (List.range' (alignLen tf etf bmk - (tl + 1))
            ((alignLen tf etf bmk - 1) - (alignLen tf etf bmk - (tl + 1)))).map (fun i =>
          (r3 ((rsRatioSeq tf etf bmk).getD i 0),
           r3 ((rsMomentumSeq tf etf bmk).getD i 0)))
        rs_history := (List.range' (alignLen tf etf bmk - hl)
            (alignLen tf etf bmk - (alignLen tf etf bmk - hl))).map (fun i =>
          ((alignDates tf etf bmk).getD i 0,
           r3 ((rsRatioSeq tf etf bmk).getD i 0))) } := by
  have hrne : rsRatioSeq tf etf bmk ≠ [] := by
    rw [← List.length_pos, length_rsRatioSeq]
    omega
  have hmne : rsMomentumSeq tf etf bmk ≠ [] := by
    rw [← List.length_pos, length_rsMomentumSeq]
    omega
  obtain ⟨a, ha⟩ := Option.isSome_iff_exists.1 (List.getLast?_isSome.2 hrne)
  obtain ⟨b, hb⟩ := Option.isSome_iff_exists.1 (List.getLast?_isSome.2 hmne)
  unfold compute_rrg
  simp only [if_neg h, ha, hb, Option.getD_some]

/-- Claim C8: compute_rrg returns none exactly when fewer than 20 aligned points
exist; with at least 20 it returns a result (a plain optional outcome, never a
crash). -/
theorem C8_none_iff_insufficient (ticker tf : String) (etf bmk : List Candle)
    (tl hl : Nat) :
    compute_rrg ticker etf bmk tf tl hl = none ↔ alignLen tf etf bmk < 20 := by
  by_cases h : alignLen tf etf bmk < 20
  · simp [compute_rrg_eq_none ticker tf etf bmk tl hl h, h]
  · rw [compute_rrg_eq_some ticker tf etf bmk tl hl h]
    simp [h]

/-- Claim C1 counterexample: on two identical 20-candle daily series the aligned
length n is 20, tail_len 25 satisfies tail_len + 1 > n, yet the tail is not
empty: it holds the 19 points preceding the current one (the index window is
clipped at 0, it does not degenerate to the empty range). -/
theorem C1_counterexample :
    alignLen "daily" c1_candles c1_candles = 20 ∧
    alignLen "daily" c1_candles c1_candles < 25 + 1 ∧
    (compute_rrg "spy" c1_candles c1_candles "daily" 25 5).map
        (fun r => r.tail.length) = some 19 := by
  refine ⟨by decide, by decide, ?_⟩
  rw [compute_rrg_eq_some "spy" "daily" c1_candles c1_candles 25 5 (by decide)]
  have h20 : alignLen "daily" c1_candles c1_candles = 20 := by decide
  simp only [Option.map_some', List.length_map, List.length_range', h20]

/-- Claim C1 (amended): whenever compute_rrg returns a result, its tail consists of
the rounded (rs_ratio, rs_momentum) pairs at the tail_len indices immediately
preceding the current point, clipped at 0, oldest to newest and excluding the
current point; so its length is min tail_len (n - 1), and when
tail_len + 1 > n it holds all n - 1 preceding points rather than being
empty. -/
theorem C1_tail_window (ticker tf : String) (etf bmk : List Candle)
    (tl hl : Nat) (r : RrgResponse)
    (h : compute_rrg ticker etf bmk tf tl hl = some r) :
    r.tail.length = min tl (alignLen tf etf bmk - 1) ∧
    (∀ j, j < r.tail.length →
      r.tail.getD j (0, 0) =
        (r3 ((rsRatioSeq tf etf bmk).getD
            (alignLen tf etf bmk - 1 - r.tail.length + j) 0),
         r3 ((rsMomentumSeq tf etf bmk).getD
            (alignLen tf etf bmk - 1 - r.tail.length + j) 0))) := by
  by_cases h20 : alignLen tf etf bmk < 20
  · rw [compute_rrg_eq_none ticker tf etf bmk tl hl h20] at h
    exact absurd h (by simp)
  · rw [compute_rrg_eq_some ticker tf etf bmk tl hl h20] at h
    have hr := Option.some.inj h
    subst hr
    have h20' : 20 ≤ alignLen tf etf bmk := le_of_not_lt h20
    have hlen : (((List.range' (alignLen tf etf bmk - (tl + 1))
        ((alignLen tf etf bmk - 1) - (alignLen tf etf bmk - (tl + 1)))).map (fun i =>
          (r3 ((rsRatioSeq tf etf bmk).getD i 0),
           r3 ((rsMomentumSeq tf etf bmk).getD i 0))))).length =
        min tl (alignLen tf etf bmk - 1) := by
      rw [List.length_map, List.length_range']
      omega
    refine ⟨hlen, fun j hj => ?_⟩
    rw [hlen] at hj
    have hj' : j < (alignLen tf etf bmk - 1) - (alignLen tf etf bmk - (tl + 1)) := by
      omega
    rw [List.getD_eq_getElem?_getD, List.getElem?_map,
      List.getElem?_range' _ _ hj', hlen]
    have hidx : alignLen tf etf bmk - (tl + 1) + 1 * j =
        alignLen tf etf bmk - 1 - min tl (alignLen tf etf bmk - 1) + j := by
      omega
    rw [Option.map_some', Option.getD_some, hidx]

/-- Claim C1 witness: the amended tail property applied to the concrete 20-point
series with tail_len 3. -/
theorem C1_tail_window_witness :
    (compute_rrg "spy" c1_candles c1_candles "daily" 3 5).elim 0
        (fun r => r.tail.length) =
      min 3 (alignLen "daily" c1_candles c1_candles - 1) := by
  have h := compute_rrg_eq_some "spy" "daily" c1_candles c1_candles 3 5 (by decide)
  have hw := (C1_tail_window "spy" "daily" c1_candles c1_candles 3 5 _ h).1
  rw [h]
  exact hw

lemma minByKey_spec (key : Candle → Nat) (l : List Candle) (hl : l ≠ []) :
    ∃ m pre post, minByKey key l = some m ∧ l = pre ++ m :: post ∧
      (∀ x ∈ pre, key m < key x) ∧ (∀ x ∈ l, key m ≤ key x) := by
  induction l with
  | nil => cases hl rfl
  | cons a t ih =>
    cases t with
    | nil =>
      refine ⟨a, [], [], by simp [minByKey], by simp, by simp, ?_⟩
      intro x hx
      rw [List.mem_singleton.1 hx]
    | cons b t2 =>
      obtain ⟨m, pre, post, hmk, heq, hpre, hmin⟩ := ih (by simp)
      by_cases hlt : key m < key a
      · refine ⟨m, a :: pre, post, ?_, by simp [heq], ?_, ?_⟩
        · show (match minByKey key (b :: t2) with
            | none => some a
            | some m => if key m < key a then some m else some a) = some m
          rw [hmk]
          exact if_pos hlt
        · intro x hx
          rcases List.mem_cons.1 hx with hx | hx
          · rw [hx]; exact hlt
          · exact hpre x hx
        · intro x hx
          rcases List.mem_cons.1 hx with hx | hx
          · rw [hx]; exact le_of_lt hlt
          · exact hmin x hx
      · refine ⟨a, [], b :: t2, ?_, rfl, by simp, ?_⟩
        · show (match minByKey key (b :: t2) with
            | none => some a
            | some m => if key m < key a then some m else some a) = some a
          rw [hmk]
          exact if_neg hlt
        · intro x hx
          rcases List.mem_cons.1 hx with hx | hx
          · rw [hx]
          · exact le_trans (le_of_not_lt hlt) (hmin x hx)

lemma closest_close_eq (candles : List Candle) (latest chosen : Candle)
    (months_ago : Nat)
    (h : minByKey
        (fun c => (c.timestamp - subMonths latest.timestamp months_ago).natAbs)
        candles = some chosen) :
    closest_close candles latest months_ago =
      (latest.close - chosen.close) / chosen.close * 100 := by
  unfold closest_close
  simp only [h]

/-- Claim C4: compute_perf of the empty list is the empty map; otherwise each of the
four horizons (1, 3, 6 and 12 months) maps to the percent change from the
candle whose timestamp is nearest to the latest timestamp minus that many
months (ties resolved in favour of the first-encountered candle); and for a
single-candle input every horizon yields 0. -/
theorem C4_compute_perf_spec (candles : List Candle) :
    (candles = [] → compute_perf candles = []) ∧
    (∀ latest, candles.getLast? = some latest →
      ∀ ml : Nat × String, ml ∈ [(1, "1M"), (3, "3M"), (6, "6M"), (12, "1Y")] →
        ∃ chosen pre post,
          candles = pre ++ chosen :: post ∧
          (∀ x ∈ pre,
            (chosen.timestamp - subMonths latest.timestamp ml.1).natAbs <
              (x.timestamp - subMonths latest.timestamp ml.1).natAbs) ∧
          (∀ x ∈ candles,
            (chosen.timestamp - subMonths latest.timestamp ml.1).natAbs ≤
              (x.timestamp - subMonths latest.timestamp ml.1).natAbs) ∧
          (compute_perf candles).lookup ml.2 =
            some ((latest.close - chosen.close) / chosen.close * 100)) ∧
    (∀ c, candles = [c] →
      ∀ lbl ∈ ["1M", "3M", "6M", "1Y"],
        (compute_perf candles).lookup lbl = some 0) := by
  refine ⟨fun h => by rw [h]; rfl, fun latest hlast ml hml => ?_, fun c hc => ?_⟩
  · have hne : candles ≠ [] := by
      intro h
      rw [h] at hlast
      exact Option.noConfusion hlast
    obtain ⟨chosen, pre, post, hmk, heq, hpre, hmin⟩ :=
      minByKey_spec
        (fun c => (c.timestamp - subMonths latest.timestamp ml.1).natAbs)
        candles hne
    refine ⟨chosen, pre, post, heq, hpre, hmin, ?_⟩
    have hcp : compute_perf candles =
        [("1M", closest_close candles latest 1),
         ("3M", closest_close candles latest 3),
         ("6M", closest_close candles latest 6),
         ("1Y", closest_close candles latest 12)] := by
      unfold compute_perf
      rw [hlast]
    simp only [List.mem_cons, List.not_mem_nil, or_false] at hml
    rcases hml with rfl | rfl | rfl | rfl
    · rw [hcp]
      have hv := closest_close_eq candles latest chosen 1 hmk
      simp [List.lookup, hv]
    · rw [hcp]
      have hv := closest_close_eq candles latest chosen 3 hmk
      simp [List.lookup, hv]
    · rw [hcp]
      have hv := closest_close_eq candles latest chosen 6 hmk
      simp [List.lookup, hv]
    · rw [hcp]
      have hv := closest_close_eq candles latest chosen 12 hmk
      simp [List.lookup, hv]
  · subst hc
    have hz : ∀ months_ago : Nat, closest_close [c] c months_ago = 0 := by
      intro months_ago
      have hm1 : minByKey
          (fun x => (x.timestamp - subMonths c.timestamp months_ago).natAbs)
          [c] = some c := by
        simp [minByKey]
      rw [closest_close_eq [c] c c months_ago hm1]
      simp
    have hcp : compute_perf [c] =
        [("1M", closest_close [c] c 1),
         ("3M", closest_close [c] c 3),
         ("6M", closest_close [c] c 6),
         ("1Y", closest_close [c] c 12)] := by
      unfold compute_perf
      rfl
    intro lbl hlbl
    simp only [List.mem_cons, List.not_mem_nil, or_false] at hlbl
    rcases hlbl with rfl | rfl | rfl | rfl
    all_goals rw [hcp]
    all_goals simp [List.lookup, hz]

/-- Claim C4 witness: the single-candle clause of the compute_perf specification
applied to one concrete candle on the 1M horizon. -/
theorem C4_compute_perf_spec_witness :
    (compute_perf [c4_candle]).lookup "1M" = some 0 :=
  (C4_compute_perf_spec [c4_candle]).2.2 c4_candle rfl "1M" (by simp)

lemma lastMarketCloseAux_sound (mc now : Int) : ∀ (fuel : Nat) (cand c : Int),
    lastMarketCloseAux mc now fuel cand = some c →
    ∃ d, c = d * 86400 + mc ∧ isWeekend d = false ∧ c ≤ now ∧ d ≤ cand ∧
      ∀ e, d < e → e ≤ cand → (isWeekend e = true ∨ now < e * 86400 + mc) := by
  intro fuel
  induction fuel with
  | zero =>
    intro cand c h
    simp [lastMarketCloseAux] at h
  | succ n ih =>
    intro cand c h
    simp only [lastMarketCloseAux] at h
    by_cases hw : isWeekend cand = true
    · rw [if_pos hw] at h
      obtain ⟨d, h1, h2, h3, h4, h5⟩ := ih (cand - 1) c h
      refine ⟨d, h1, h2, h3, by omega, fun e he1 he2 => ?_⟩
      by_cases hec : e = cand
      · exact Or.inl (hec ▸ hw)
      · exact h5 e he1 (by omega)
    · rw [if_neg hw] at h
      by_cases hcl : cand * 86400 + mc ≤ now
      · rw [if_pos hcl] at h
        have hc := Option.some.inj h
        have hwf : isWeekend cand = false := by
          simp only [Bool.not_eq_true] at hw
          exact hw
        refine ⟨cand, hc.symm, hwf, by omega, le_refl cand,
          fun e he1 he2 => by omega⟩
      · rw [if_neg hcl] at h
        obtain ⟨d, h1, h2, h3, h4, h5⟩ := ih (cand - 1) c h
        refine ⟨d, h1, h2, h3, by omega, fun e he1 he2 => ?_⟩
        by_cases hec : e = cand
        · subst hec
          exact Or.inr (by omega)
        · exact h5 e he1 (by omega)

lemma lastMarketCloseAux_succeeds (mc now : Int) : ∀ (fuel : Nat) (cand : Int),
    (∃ d, cand - fuel < d ∧ d ≤ cand ∧ isWeekend d = false ∧
      d * 86400 + mc ≤ now) →
    (lastMarketCloseAux mc now fuel cand).isSome = true := by
  intro fuel
  induction fuel with
  | zero =>
    intro cand h
    obtain ⟨d, h1, h2, _, _⟩ := h
    exfalso
    omega
  | succ n ih =>
    intro cand h
    obtain ⟨d, h1, h2, h3, h4⟩ := h
    simp only [lastMarketCloseAux]
    by_cases hw : isWeekend cand = true
    · rw [if_pos hw]
      apply ih
      have hne : d ≠ cand := by
        intro he
        rw [he] at h3
        rw [h3] at hw
        exact Bool.noConfusion hw
      exact ⟨d, by omega, by omega, h3, h4⟩
    · rw [if_neg hw]
      by_cases hcl : cand * 86400 + mc ≤ now
      · rw [if_pos hcl]
        rfl
      · rw [if_neg hcl]
        apply ih
        have hne : d ≠ cand := by
          intro he
          rw [he] at h4
          exact hcl h4
        exact ⟨d, by omega, by omega, h3, h4⟩

lemma lastMarketClose_exists (mc now : Int) (hmc0 : 0 ≤ mc) (hmc1 : mc < 86400) :
    ∃ c, lastMarketClose mc now = some c := by
  rw [← Option.isSome_iff_exists]
  unfold lastMarketClose
  apply lastMarketCloseAux_succeeds
  simp only [dateNaive]
  by_cases h5 : (now / 86400 + 3) % 7 = 5
  · refine ⟨now / 86400 - 1, by omega, by omega, ?_, by omega⟩
    simp only [isWeekend, weekdayOf, decide_eq_false_iff_not, not_or]
    omega
  by_cases h6 : (now / 86400 + 3) % 7 = 6
  · refine ⟨now / 86400 - 2, by omega, by omega, ?_, by omega⟩
    simp only [isWeekend, weekdayOf, decide_eq_false_iff_not, not_or]
    omega
  by_cases hs : mc ≤ now % 86400
  · refine ⟨now / 86400, by omega, le_refl _, ?_, by omega⟩
    simp only [isWeekend, weekdayOf, decide_eq_false_iff_not, not_or]
    omega
  by_cases h0 : (now / 86400 + 3) % 7 = 0
  · refine ⟨now / 86400 - 3, by omega, by omega, ?_, by omega⟩
    simp only [isWeekend, weekdayOf, decide_eq_false_iff_not, not_or]
    omega
  · refine ⟨now / 86400 - 1, by omega, by omega, ?_, by omega⟩
    simp only [isWeekend, weekdayOf, decide_eq_false_iff_not, not_or]
    omega

lemma lastMarketClose_spec (mc now : Int) (hmc0 : 0 ≤ mc) (hmc1 : mc < 86400) :
    ∃ c, lastMarketClose mc now = some c ∧ isWeekend (dateNaive c) = false ∧
      secOfDay c = mc ∧ c ≤ now ∧
      ∀ x, isWeekend (dateNaive x) = false → secOfDay x = mc → x ≤ now → x ≤ c := by
  obtain ⟨c, hc⟩ := lastMarketClose_exists mc now hmc0 hmc1
  obtain ⟨d, h1, h2, h3, h4, h5⟩ :=
    lastMarketCloseAux_sound mc now 5 (dateNaive now) c hc
  have hdc : dateNaive c = d := by
    simp only [dateNaive] at *
    omega
  have hsc : secOfDay c = mc := by
    simp only [secOfDay]
    omega
  refine ⟨c, hc, by rw [hdc]; exact h2, hsc, h3, fun x hx1 hx2 hx3 => ?_⟩
  simp only [dateNaive] at hx1
  simp only [secOfDay] at hx2
  by_cases hxd : x / 86400 ≤ d
  · omega
  · have hxe := h5 (x / 86400) (by omega) (by simp only [dateNaive]; omega)
    rcases hxe with hxe | hxe
    · rw [hx1] at hxe
      exact absurd hxe (by simp)
    · omega

lemma isMarketOpen_iff (mo mc now : Int) :
    isMarketOpen mo mc now = true ↔
      (isWeekend (dateNaive now) = false ∧ mo ≤ secOfDay now ∧ secOfDay now < mc) := by
  unfold isMarketOpen
  by_cases hw : isWeekend (dateNaive now) = true
  · simp [hw]
  · simp only [Bool.not_eq_true] at hw
    simp [hw, and_assoc]

/-- Claim C5: when evaluated on a weekday during the configured market hours,
is_upto_date is false for every last_updated; at any other evaluation time it
is true exactly when last_updated is at least the last market close, which is
the most recent weekday market-close instant not after now (the backward walk
skips Saturdays and Sundays). -/
theorem C5_is_upto_date_spec (mo mc now t : Int) (hmc0 : 0 ≤ mc)
    (hmc1 : mc < 86400) :
    ((isWeekend (dateNaive now) = false ∧ mo ≤ secOfDay now ∧ secOfDay now < mc) →
      is_upto_date mo mc now t = false) ∧
    (¬(isWeekend (dateNaive now) = false ∧ mo ≤ secOfDay now ∧
        secOfDay now < mc) →
      ∃ c, lastMarketClose mc now = some c ∧
        (is_upto_date mo mc now t = true ↔ c ≤ t) ∧
        isWeekend (dateNaive c) = false ∧ secOfDay c = mc ∧ c ≤ now ∧
        ∀ x, isWeekend (dateNaive x) = false → secOfDay x = mc → x ≤ now →
          x ≤ c) := by
  constructor
  · intro h
    unfold is_upto_date
    rw [if_pos ((isMarketOpen_iff mo mc now).2 h)]
  · intro h
    obtain ⟨c, hc, hcw, hcs, hcn, hcmax⟩ := lastMarketClose_spec mc now hmc0 hmc1
    refine ⟨c, hc, ?_, hcw, hcs, hcn, hcmax⟩
    unfold is_upto_date
    have hopen : isMarketOpen mo mc now = false := by
      rw [← Bool.not_eq_true]
      intro habs
      exact h ((isMarketOpen_iff mo mc now).1 habs)
    rw [hopen]
    simp only [Bool.false_eq_true, if_false, hc, ge_iff_le, decide_eq_true_eq]

/-- Claim C5 witness: with market hours 09:30 to 16:00, at Tuesday 17:00 local
(day 5, second 61200) a last_updated of Tuesday 16:05 (second 57900) is
fresh. -/
theorem C5_is_upto_date_spec_witness :
    is_upto_date 34200 57600 (5 * 86400 + 61200) (5 * 86400 + 57900) = true := by
  obtain ⟨c, hc, hiff, _, _, _, _⟩ :=
    (C5_is_upto_date_spec 34200 57600 (5 * 86400 + 61200) (5 * 86400 + 57900)
      (by norm_num) (by norm_num)).2 (by decide)
  have hlmc : lastMarketClose 57600 (5 * 86400 + 61200) = some 489600 := by decide
  rw [hlmc] at hc
  have hceq : c = 489600 := (Option.some.inj hc).symm
  exact hiff.2 (by rw [hceq]; norm_num)

lemma insertTs_perm (c : Candle) (l : List Candle) :
    (insertTs c l).Perm (c :: l) := by
  induction l with
  | nil => simp [insertTs]
  | cons b t ih =>
    unfold insertTs
    by_cases h : c.timestamp ≤ b.timestamp
    · rw [if_pos h]
    · rw [if_neg h]
      exact (ih.cons b).trans (List.Perm.swap c b t)

lemma sortByTs_perm (l : List Candle) : (sortByTs l).Perm l := by
  induction l with
  | nil => simp [sortByTs]
  | cons c t ih =>
    unfold sortByTs
    exact (insertTs_perm c (sortByTs t)).trans (ih.cons c)

lemma mem_sortByTs {c : Candle} {l : List Candle} : c ∈ sortByTs l ↔ c ∈ l :=
  (sortByTs_perm l).mem_iff

lemma insertTs_pairwise (c : Candle) (l : List Candle)
    (h : l.Pairwise (fun a b => a.timestamp ≤ b.timestamp)) :
    (insertTs c l).Pairwise (fun a b => a.timestamp ≤ b.timestamp) := by
  induction l with
  | nil => simp [insertTs]
  | cons b t ih =>
    rw [List.pairwise_cons] at h
    obtain ⟨hb, ht⟩ := h
    unfold insertTs
    by_cases hc : c.timestamp ≤ b.timestamp
    · rw [if_pos hc]
      refine List.Pairwise.cons ?_ (List.Pairwise.cons hb ht)
      intro x hx
      rcases List.mem_cons.1 hx with rfl | hx
      · exact hc
      · exact le_trans hc (hb x hx)
    · rw [if_neg hc]
      refine List.Pairwise.cons ?_ (ih ht)
      intro x hx
      rcases List.mem_cons.1 ((insertTs_perm c t).mem_iff.1 hx) with rfl | hx2
      · omega
      · exact hb x hx2

lemma sortByTs_pairwise (l : List Candle) :
    (sortByTs l).Pairwise (fun a b => a.timestamp ≤ b.timestamp) := by
  induction l with
  | nil => simp [sortByTs]
  | cons c t ih =>
    unfold sortByTs
    exact insertTs_pairwise c (sortByTs t) ih

lemma get_candles_mem (store : CandleStore) (ticker : String) (now : Int)
    (c : Candle) :
    c ∈ get_candles store ticker now ↔
      ((ticker, c) ∈ store ∧ now - 730 * 86400 ≤ c.timestamp) := by
  unfold get_candles
  rw [mem_sortByTs, List.mem_map]
  constructor
  · rintro ⟨r, hr, rfl⟩
    rw [List.mem_filter] at hr
    obtain ⟨hrs, hcond⟩ := hr
    simp only [decide_eq_true_eq] at hcond
    obtain ⟨h1, h2⟩ := hcond
    refine ⟨?_, h2⟩
    have hre : (ticker, r.2) = r := by rw [← h1]
    rw [hre]
    exact hrs
  · rintro ⟨hmem, hts⟩
    refine ⟨(ticker, c), List.mem_filter.2 ⟨hmem, ?_⟩, rfl⟩
    simp only [decide_eq_true_eq]
    exact ⟨trivial, hts⟩

/-- Claim C10: every candle returned by Store::get_candles has a timestamp at least
now minus 730 days (rows below the cutoff are excluded from the result even
though they stay in the store), and on the cached (non-empty) paths of
fetch_candles every returned candle satisfies the same bound. -/
theorem C10_candle_window (store : CandleStore) (ticker : String) (now : Int) :
    (∀ c, c ∈ get_candles store ticker now ↔
      ((ticker, c) ∈ store ∧ now - 730 * 86400 ≤ c.timestamp)) ∧
    (∀ mo mc : Int, ∀ yf : String → TimeSpec → List Candle,
      get_candles store ticker now ≠ [] →
      ∀ c ∈ (fetch_candles mo mc yf store ticker now).1,
        now - 730 * 86400 ≤ c.timestamp) := by
  refine ⟨fun c => get_candles_mem store ticker now c, ?_⟩
  intro mo mc yf hne c hc
  have hie : (get_candles store ticker now).isEmpty = false := by
    simp [List.isEmpty_iff, hne]
  unfold fetch_candles at hc
  simp only [hie, Bool.false_eq_true, if_false] at hc
  by_cases hu2 : is_upto_date mo mc now
      ((get_candles store ticker now).getLastD default).last_updated = true
  · rw [if_pos hu2] at hc
    exact ((get_candles_mem store ticker now c).1 hc).2
  · rw [if_neg hu2] at hc
    exact ((get_candles_mem _ ticker now c).1 hc).2

/-- Claim C10 witness: on the concrete stale-cache scenario the refreshed history
contains the newly fetched candle, and its timestamp meets the 730-day
bound. -/
theorem C10_candle_window_witness :
    493200 - 730 * 86400 ≤ c3_new.timestamp :=
  (C10_candle_window c3_store "T" 493200).2 34200 57600 c3_yf
    (by decide) c3_new (by decide)

lemma or_none_map (o : Option (String × Candle)) :
    Option.map (fun r => r.2) (o.or none) = Option.map (fun r => r.2) o := by
  cases o <;> rfl

lemma storeLookup_cons (x : String × Candle) (l : CandleStore) (t : String)
    (ts : Int) :
    storeLookup (x :: l) t ts =
      if x.1 = t ∧ x.2.timestamp = ts then some x.2 else storeLookup l t ts := by
  unfold storeLookup
  rw [List.find?_cons]
  by_cases h : x.1 = t ∧ x.2.timestamp = ts
  · simp [h]
  · simp [h]

lemma find?_map_replace (store : CandleStore) (ticker : String) (c : Candle)
    (t' : String) (ts : Int) :
    storeLookup
        (store.map (fun r =>
          if r.1 = ticker ∧ r.2.timestamp = c.timestamp then (ticker, c) else r))
        t' ts =
      if t' = ticker ∧ ts = c.timestamp then
        (if store.any
            (fun r => r.1 = ticker ∧ r.2.timestamp = c.timestamp) = true
         then some c else none)
      else storeLookup store t' ts := by
  induction store with
  | nil =>
    by_cases hk : t' = ticker ∧ ts = c.timestamp <;>
      simp [storeLookup, hk]
  | cons r rest ih =>
    rw [List.map_cons]
    by_cases hr : r.1 = ticker ∧ r.2.timestamp = c.timestamp
    · rw [if_pos hr, storeLookup_cons]
      by_cases hk : t' = ticker ∧ ts = c.timestamp
      · have hhead : (ticker, c).1 = t' ∧ (ticker, c).2.timestamp = ts := by
          exact ⟨hk.1.symm, hk.2.symm⟩
        rw [if_pos hhead, if_pos hk]
        have hany : (r :: rest).any
            (fun r => r.1 = ticker ∧ r.2.timestamp = c.timestamp) = true := by
          simp [List.any_cons, hr]
        rw [if_pos hany]
      · have hhead : ¬((ticker, c).1 = t' ∧ (ticker, c).2.timestamp = ts) := by
          intro h
          exact hk ⟨h.1.symm, h.2.symm⟩
        rw [if_neg hhead, ih]
        simp only [if_neg hk]
        have hrk : ¬(r.1 = t' ∧ r.2.timestamp = ts) := by
          intro h
          exact hk ⟨h.1.symm.trans hr.1, h.2.symm.trans hr.2⟩
        rw [storeLookup_cons, if_neg hrk]
    · rw [if_neg hr, storeLookup_cons, storeLookup_cons]
      by_cases hp : r.1 = t' ∧ r.2.timestamp = ts
      · rw [if_pos hp]
        have hk : ¬(t' = ticker ∧ ts = c.timestamp) := by
          intro h
          exact hr ⟨hp.1.trans h.1, hp.2.trans h.2⟩
        rw [if_neg hk, if_pos hp]
      · rw [if_neg hp, ih]
        have hany : (r :: rest).any
              (fun r => r.1 = ticker ∧ r.2.timestamp = c.timestamp) =
            rest.any (fun r => r.1 = ticker ∧ r.2.timestamp = c.timestamp) := by
          simp [List.any_cons, hr]
        by_cases hk : t' = ticker ∧ ts = c.timestamp
        · rw [if_pos hk, if_pos hk, hany]
        · rw [if_neg hk, if_neg hk, if_neg hp]

lemma storeLookup_upsert (store : CandleStore) (ticker : String) (c : Candle)
    (t' : String) (ts : Int) :
    storeLookup (upsertCandle store ticker c) t' ts =
      if t' = ticker ∧ ts = c.timestamp then some c
      else storeLookup store t' ts := by
  unfold upsertCandle
  by_cases hany : store.any
      (fun r => r.1 = ticker ∧ r.2.timestamp = c.timestamp) = true
  · rw [if_pos hany, find?_map_replace, if_pos hany]
  · rw [if_neg hany]
    unfold storeLookup
    rw [List.find?_append]
    by_cases hk : t' = ticker ∧ ts = c.timestamp
    · rw [if_pos hk]
      have hnone : store.find? (fun r => r.1 = t' ∧ r.2.timestamp = ts) = none := by
        rcases hfs : store.find? (fun r => r.1 = t' ∧ r.2.timestamp = ts) with _ | r
        · exact hfs
        · exfalso
          apply hany
          have hpr := List.find?_some hfs
          simp only [decide_eq_true_eq] at hpr
          have hmr := List.mem_of_find?_eq_some hfs
          rw [List.any_eq_true]
          refine ⟨r, hmr, ?_⟩
          simp only [decide_eq_true_eq]
          exact ⟨hpr.1.trans hk.1, hpr.2.trans hk.2⟩
      rw [hnone]
      simp [List.find?_singleton, hk.1.symm, hk.2.symm, Option.or]
    · rw [if_neg hk]
      have hsing : List.find? (fun r => r.1 = t' ∧ r.2.timestamp = ts)
          [(ticker, c)] = none := by
        rw [List.find?_singleton]
        have : ¬((ticker, c).1 = t' ∧ (ticker, c).2.timestamp = ts) := by
          intro h
          exact hk ⟨h.1.symm, h.2.symm⟩
        simp [this]
      rw [hsing]
      exact or_none_map _

lemma StoreUniq_upsert (store : CandleStore) (ticker : String) (c : Candle)
    (hu : StoreUniq store) : StoreUniq (upsertCandle store ticker c) := by
  unfold upsertCandle
  by_cases hany : store.any
      (fun r => r.1 = ticker ∧ r.2.timestamp = c.timestamp) = true
  · rw [if_pos hany]
    unfold StoreUniq at hu ⊢
    rw [List.pairwise_map]
    refine hu.imp ?_
    intro a b hab habs
    apply hab
    by_cases ha : a.1 = ticker ∧ a.2.timestamp = c.timestamp
    · by_cases hb : b.1 = ticker ∧ b.2.timestamp = c.timestamp
      · exact ⟨ha.1.trans hb.1.symm, ha.2.trans hb.2.symm⟩
      · rw [if_pos ha, if_neg hb] at habs
        exact ⟨ha.1.trans habs.1, ha.2.trans habs.2⟩
    · by_cases hb : b.1 = ticker ∧ b.2.timestamp = c.timestamp
      · rw [if_neg ha, if_pos hb] at habs
        exact absurd ⟨habs.1, habs.2⟩ ha
      · rw [if_neg ha, if_neg hb] at habs
        exact habs
  · rw [if_neg hany]
    unfold StoreUniq at hu ⊢
    rw [List.pairwise_append]
    refine ⟨hu, List.pairwise_singleton _ _, ?_⟩
    intro a ha b hb
    rw [List.mem_singleton] at hb
    subst hb
    intro habs
    apply hany
    rw [List.any_eq_true]
    exact ⟨a, ha, by simp only [decide_eq_true_eq]; exact ⟨habs.1, habs.2⟩⟩

lemma StoreUniq_save (ticker : String) (cs : List Candle) :
    ∀ store : CandleStore, StoreUniq store →
      StoreUniq (save_candles store ticker cs) := by
  induction cs with
  | nil => intro store hu; exact hu
  | cons c rest ih =>
    intro store hu
    rw [save_candles, List.foldl_cons]
    exact ih (upsertCandle store ticker c) (StoreUniq_upsert store ticker c hu)

lemma fetchLookup_cons (c : Candle) (cs : List Candle) (ts : Int) :
    fetchLookup (c :: cs) ts =
      (fetchLookup cs ts).or (if c.timestamp = ts then some c else none) := by
  unfold fetchLookup
  rw [List.reverse_cons, List.find?_append, List.find?_singleton]
  by_cases h : c.timestamp = ts <;> simp [h]

lemma fetchLookup_append (as bs : List Candle) (ts : Int) :
    fetchLookup (as ++ bs) ts = (fetchLookup bs ts).or (fetchLookup as ts) := by
  unfold fetchLookup
  rw [List.reverse_append, List.find?_append]

lemma fetchLookup_mem (cs : List Candle) (ts : Int) (c : Candle)
    (h : fetchLookup cs ts = some c) : c ∈ cs ∧ c.timestamp = ts := by
  unfold fetchLookup at h
  constructor
  · have := List.mem_of_find?_eq_some h
    rw [List.mem_reverse] at this
    exact this
  · have := List.find?_some h
    simpa using this

lemma storeLookup_save (ticker : String) (cs : List Candle) :
    ∀ (store : CandleStore) (t' : String) (ts : Int),
      storeLookup (save_candles store ticker cs) t' ts =
        if t' = ticker then (fetchLookup cs ts).or (storeLookup store t' ts)
        else storeLookup store t' ts := by
  induction cs with
  | nil =>
    intro store t' ts
    show storeLookup store t' ts = _
    rw [show fetchLookup [] ts = none from rfl]
    by_cases ht : t' = ticker <;> simp [ht, Option.or]
  | cons c rest ih =>
    intro store t' ts
    rw [save_candles, List.foldl_cons]
    have hsave : List.foldl (fun s c => upsertCandle s ticker c)
        (upsertCandle store ticker c) rest =
        save_candles (upsertCandle store ticker c) ticker rest := rfl
    rw [hsave, ih (upsertCandle store ticker c), fetchLookup_cons]
    by_cases ht : t' = ticker
    · rw [if_pos ht, if_pos ht, storeLookup_upsert]
      cases hf : fetchLookup rest ts with
      | some d => simp [Option.or]
      | none =>
        by_cases hts : ts = c.timestamp
        · have hk : t' = ticker ∧ ts = c.timestamp := ⟨ht, hts⟩
          rw [if_pos hk, if_pos hts.symm]
          simp [Option.or]
        · have hts2 : ¬(c.timestamp = ts) := fun h => hts h.symm
          have hk : ¬(t' = ticker ∧ ts = c.timestamp) := fun h => hts h.2
          rw [if_neg hk, if_neg hts2]
          simp [Option.or]
    · rw [if_neg ht, if_neg ht, storeLookup_upsert]
      have hk : ¬(t' = ticker ∧ ts = c.timestamp) := fun h => ht h.1
      rw [if_neg hk]

lemma storeLookup_of_uniq (store : CandleStore) (hu : StoreUniq store)
    (t : String) (c : Candle) (hm : (t, c) ∈ store) :
    storeLookup store t c.timestamp = some c := by
  induction store with
  | nil => cases hm
  | cons r rest ih =>
    rw [storeLookup_cons]
    unfold StoreUniq at hu
    rw [List.pairwise_cons] at hu
    obtain ⟨hr, hrest⟩ := hu
    rcases List.mem_cons.1 hm with heq | hm2
    · rw [← heq]
      simp
    · by_cases hcond : r.1 = t ∧ r.2.timestamp = c.timestamp
      · exact absurd hcond (hr (t, c) hm2)
      · rw [if_neg hcond]
        exact ih hrest hm2

lemma get_candles_chain (store : CandleStore) (ticker : String) (now : Int)
    (hu : StoreUniq store) :
    List.Chain' (fun a b : Candle => a.timestamp < b.timestamp)
      (get_candles store ticker now) := by
  unfold get_candles
  apply List.Pairwise.chain'
  have hle := sortByTs_pairwise
    ((store.filter (fun r =>
        r.1 = ticker ∧ now - 730 * 86400 ≤ r.2.timestamp)).map (fun r => r.2))
  have hne : ((store.filter (fun r =>
      r.1 = ticker ∧ now - 730 * 86400 ≤ r.2.timestamp)).map
        (fun r => r.2)).Pairwise
      (fun a b => a.timestamp ≠ b.timestamp) := by
    rw [List.pairwise_map]
    have hpf : (store.filter (fun r =>
        r.1 = ticker ∧ now - 730 * 86400 ≤ r.2.timestamp)).Pairwise
        (fun a b => ¬(a.1 = b.1 ∧ a.2.timestamp = b.2.timestamp)) :=
      List.Pairwise.filter _ hu
    refine hpf.imp_of_mem ?_
    intro a b ha hb hab habs
    rw [List.mem_filter] at ha hb
    have ha1 : a.1 = ticker := by
      have := ha.2
      simp only [decide_eq_true_eq] at this
      exact this.1
    have hb1 : b.1 = ticker := by
      have := hb.2
      simp only [decide_eq_true_eq] at this
      exact this.1
    exact hab ⟨ha1.trans hb1.symm, habs⟩
  have hperm := (sortByTs_perm ((store.filter (fun r =>
      r.1 = ticker ∧ now - 730 * 86400 ≤ r.2.timestamp)).map (fun r => r.2))).symm
  have hne2 := hne.perm hperm (fun hxy => hxy ∘ Eq.symm)
  exact (hle.and hne2).imp (fun hab => lt_of_le_of_ne hab.1 hab.2)

/-- Claim C3: on the stale-cache path (cached candles non-empty, latest bar not
fresh) fetch_candles drops exactly the most recent cached bar, requests only
the delta window from one day before the new latest remaining bar (or the
default two-year lookback when nothing remains) up to now, upserts by
(ticker, timestamp) with fetched bars overwriting overlaps, and returns the
merged, deduplicated, timestamp-ascending sequence re-read from storage. -/
theorem C3_fetch_candles_stale (mo mc : Int)
    (yf : String → TimeSpec → List Candle) (store : CandleStore)
    (ticker : String) (now : Int) (hu : StoreUniq store) (lastC : Candle)
    (hlast : (get_candles store ticker now).getLast? = some lastC)
    (hstale : is_upto_date mo mc now lastC.last_updated = false)
    (remaining : List Candle)
    (hrem : remaining = (get_candles store ticker now).dropLast)
    (start : Int)
    (hstart : start = (match remaining.getLast? with
      | some c => c.timestamp - 86400
      | none => now - 2 * 365 * 86400))
    (fetched : List Candle)
    (hf : fetched = yf ticker (TimeSpec.Interval start now))
    (store1 : CandleStore)
    (hs1 : store1 = save_candles store ticker (remaining ++ fetched)) :
    (fetch_candles mo mc yf store ticker now).2 = store1 ∧
    (fetch_candles mo mc yf store ticker now).1 = get_candles store1 ticker now ∧
    (∀ t ts, storeLookup store1 t ts =
      if t = ticker then (fetchLookup fetched ts).or (storeLookup store t ts)
      else storeLookup store t ts) ∧
    List.Chain' (fun a b : Candle => a.timestamp < b.timestamp)
      ((fetch_candles mo mc yf store ticker now).1) ∧
    (∀ c, c ∈ (fetch_candles mo mc yf store ticker now).1 ↔
      ((ticker, c) ∈ store1 ∧ now - 730 * 86400 ≤ c.timestamp)) := by
  have hne : get_candles store ticker now ≠ [] := by
    intro h
    rw [h] at hlast
    exact Option.noConfusion hlast
  have hie : (get_candles store ticker now).isEmpty = false := by
    simp [List.isEmpty_iff, hne]
  have hlastD : (get_candles store ticker now).getLastD default = lastC := by
    rw [List.getLastD_eq_getLast?, hlast]
    rfl
  have hstale2 :
      ¬(is_upto_date mo mc now
        ((get_candles store ticker now).getLastD default).last_updated = true) := by
    rw [hlastD, hstale]
    simp
  have hcall : fetch_candles mo mc yf store ticker now =
      (get_candles store1 ticker now, store1) := by
    unfold fetch_candles
    simp only [hie, Bool.false_eq_true, if_false]
    rw [if_neg hstale2]
    rw [← hrem, ← hstart, ← hf, ← hs1]
  have huniq1 : StoreUniq store1 := by
    rw [hs1]
    exact StoreUniq_save ticker (remaining ++ fetched) store hu
  refine ⟨by rw [hcall], by rw [hcall], ?_, ?_, ?_⟩
  · intro t ts
    rw [hs1, storeLookup_save, fetchLookup_append]
    by_cases ht : t = ticker
    · rw [if_pos ht, if_pos ht]
      cases hfd : fetchLookup fetched ts with
      | some d => simp [Option.or]
      | none =>
        cases hrm : fetchLookup remaining ts with
        | none => simp [Option.or]
        | some c =>
          obtain ⟨hcm, hcts⟩ := fetchLookup_mem remaining ts c hrm
          have hmemc : c ∈ get_candles store ticker now := by
            rw [hrem] at hcm
            exact List.mem_of_mem_dropLast hcm
          have hms : (ticker, c) ∈ store :=
            ((get_candles_mem store ticker now c).1 hmemc).1
          have hsl : storeLookup store ticker c.timestamp = some c :=
            storeLookup_of_uniq store hu ticker c hms
          rw [ht, ← hcts, hsl]
          simp [Option.or]
    · rw [if_neg ht, if_neg ht]
  · rw [hcall]
    exact get_candles_chain store1 ticker now huniq1
  · intro c
    rw [hcall]
    exact get_candles_mem store1 ticker now c

/-- Claim C3 witness: the stale-path specification applied to the concrete one-row
store whose single cached bar is stale; the remaining cache is empty, so the
default two-year lookback window is used. -/
theorem C3_fetch_candles_stale_witness :
    (fetch_candles 34200 57600 c3_yf c3_store "T" 493200).2 =
      save_candles c3_store "T" ([] ++ [c3_new]) :=
  (C3_fetch_candles_stale 34200 57600 c3_yf c3_store "T" 493200
    (List.pairwise_singleton _ _) c3_old (by decide) (by decide)
    [] (by decide) (493200 - 2 * 365 * 86400) (by decide)
    [c3_new] rfl
    (save_candles c3_store "T" ([] ++ [c3_new])) rfl).1

/-- Claim C2 counterexample: with an empty performance table (so no cached row) and
a provider-backed candle store, fetch_stock_perf returns a freshly recomputed
Performance for the ticker, yet the performance table after the call is still
empty: nothing was persisted, contradicting the persist clause of the
claim. -/
theorem C2_counterexample :
    get_performance 34200 57600 [] "T" TickerType.Stock 493200 = none ∧
    (fetch_stock_perf 34200 57600 c3_yf [] [] "T" 493200).1.ticker = "T" ∧
    (fetch_stock_perf 34200 57600 c3_yf [] [] "T" 493200).2.1 = [] :=
  ⟨rfl, rfl, rfl⟩

/-- Claim C2 (amended): fetch_stock_perf returns the cached Performance when one is
present and fresh (stores untouched); otherwise it recomputes the Performance
from the candles returned by ensure_candles and returns it, leaving the
performance table unchanged (the recomputed row is not persisted). -/
theorem C2_fetch_stock_perf (mo mc : Int)
    (yf : String → TimeSpec → List Candle) (perfStore : List Performance)
    (candleStore : CandleStore) (ticker : String) (now : Int) :
    (∀ p, get_performance mo mc perfStore ticker TickerType.Stock now = some p →
      fetch_stock_perf mo mc yf perfStore candleStore ticker now =
        (p, perfStore, candleStore)) ∧
    (get_performance mo mc perfStore ticker TickerType.Stock now = none →
      fetch_stock_perf mo mc yf perfStore candleStore ticker now =
        (Performance.new ticker TickerType.Stock
            (compute_perf (fetch_candles mo mc yf candleStore ticker now).1) now,
         perfStore,
         (fetch_candles mo mc yf candleStore ticker now).2)) := by
  constructor
  · intro p hp
    unfold fetch_stock_perf
    rw [hp]
  · intro hp
    unfold fetch_stock_perf
    rw [hp]

/-- Claim C2 witness: the recompute branch applied to the empty performance table;
the performance table passes through unchanged. -/
theorem C2_fetch_stock_perf_witness :
    fetch_stock_perf 34200 57600 c3_yf [] [] "T" 493200 =
      (Performance.new "T" TickerType.Stock
          (compute_perf (fetch_candles 34200 57600 c3_yf [] "T" 493200).1) 493200,
       [], (fetch_candles 34200 57600 c3_yf [] "T" 493200).2) :=
  (C2_fetch_stock_perf 34200 57600 c3_yf [] [] "T" 493200).2 rfl
